import Mathlib

/-!
Verification of the a11y-live analysis pipeline (engine.js, reporter.js, rules.js)
against its natural-language specification.

The JavaScript sources are shallowly embedded: DOM element handles become an
`Elem` record carrying exactly the attributes the pipeline reads (tag name, id,
class string, text content, serialized markup) plus a numeric identity; rules
are records whose selector matching and test predicates are function fields
returning `Except Unit Bool` (an `.error` value models a thrown exception, as
both are caught and logged by the rule engine); machine arithmetic (the 32-bit
rolling hash) is `Int` with explicit wrapping; durations and impact scores are
rationals; DOM-dependent derivations that the pipeline merely stores without
inspecting (CSS selector strings, impact heuristics, result enrichment) are
environment functions fixed for the duration of an unchanged DOM.
-/

/-- Rule severity, the three values used by the catalog (rules.js). -/
inductive Severity
  | error
  | warning
  | info
deriving DecidableEq

/-- Severity rank from `Reporter._prioritizeResults`:
`const severityOrder = { error: 3, warning: 2, info: 1 }`. -/
def severityRank : Severity → Nat
  | .error => 3
  | .warning => 2
  | .info => 1

/-- A DOM element handle, restricted to the attributes the analysis pipeline
reads. `eid` models JavaScript object identity (distinct DOM nodes are distinct
set members even when structurally equal). `outerHTML` is the serialized
markup hashed by `A11yEngine._getCacheKey`. -/
structure Elem where
  eid : Nat
  tagName : String
  id : String
  className : String
  textContent : String
  outerHTML : String
deriving DecidableEq

/-- JavaScript `parseInt` on a string, restricted to base 10: skip leading
whitespace, optional sign, then a digit prefix; `none` models `NaN`. -/
def jsParseInt (s : String) : Option Int :=
  let t := s.toList.dropWhile Char.isWhitespace
  let (neg, t) :=
    match t with
    | '-' :: rest => (true, rest)
    | '+' :: rest => (false, rest)
    | _ => (false, t)
  let digits := t.takeWhile Char.isDigit
  if digits.isEmpty then none
  else
    let v : Int := digits.foldl (fun acc c => acc * 10 + (c.toNat - '0'.toNat : Int)) 0
    some (if neg then -v else v)

/-- `Reporter._getWCAGPriority`: for a missing or empty reference return 999;
otherwise `parseInt` of the first dot-separated part, where `NaN` and `0`
both fall back to 999 (the `level || 999` idiom). -/
def getWCAGPriority (wcag : Option String) : Int :=
  match wcag with
  | none => 999
  | some s =>
      if s = "" then 999
      else
        let parts := s.split (· = '.')
        match jsParseInt (parts.headD "") with
        | none => 999
        | some v => if v = 0 then 999 else v

/-- A raw violation record as synthesized by `RuleEngine._executeRule` for a
failing (element, rule) pair. The nested `examples` payload is flattened to an
optional string; neither it nor `resources` is read by the pipeline. -/
structure Violation where
  ruleId : String
  name : String
  description : String
  wcag : Option String
  severity : Severity
  category : String
  element : Elem
  selector : String
  message : String
  suggestion : String
  examples : Option String
  resources : List String
  impact : ℚ
  timestamp : Nat
deriving DecidableEq

/-- Three-way comparison on a linear order; models the sign of the numeric
difference that a JavaScript comparator returns. -/
def cmpo {α : Type} [LinearOrder α] (x y : α) : Ordering :=
  if x < y then .lt else if y < x then .gt else .eq

/-- The comparator of `Reporter._prioritizeResults`: severity rank descending,
then impact descending, then WCAG priority ascending, then name ascending
(`localeCompare` is modeled by the linear order on strings). Each `.then`
step is taken only when the previous comparison returned zero, exactly as the
chain of early returns in the source. -/
def violationCmp (a b : Violation) : Ordering :=
  (cmpo (severityRank b.severity) (severityRank a.severity)).then
    ((cmpo b.impact a.impact).then
      ((cmpo (getWCAGPriority a.wcag) (getWCAGPriority b.wcag)).then
        (cmpo a.name b.name)))

/-- `a` may be placed before `b` by the comparator (the comparator does not
demand the opposite order). `Array.prototype.sort` with a consistent
comparator produces exactly a stable sort for this relation. -/
def prioLE (a b : Violation) : Prop := violationCmp a b ≠ .gt

instance : DecidableRel prioLE := fun a b => by
  unfold prioLE; infer_instance

/-- The sort key realized by the comparator, as a lexicographic product.
Negations express the descending severity and impact components. -/
def sortKey (a : Violation) : Int ×ₗ (ℚ ×ₗ (Int ×ₗ String)) :=
  toLex (-(severityRank a.severity : Int),
    toLex (-a.impact, toLex (getWCAGPriority a.wcag, a.name)))

theorem cmpo_eq_gt {α : Type} [LinearOrder α] {x y : α} :
    cmpo x y = .gt ↔ y < x := by
  unfold cmpo
  split_ifs with h1 h2
  · simp [lt_asymm h1]
  · simp [h2]
  · simp [h2]

theorem cmpo_eq_eq {α : Type} [LinearOrder α] {x y : α} :
    cmpo x y = .eq ↔ x = y := by
  unfold cmpo
  split_ifs with h1 h2
  · simp [ne_of_lt h1]
  · simp [ne_of_gt h2]
  · simp [le_antisymm (not_lt.mp h2) (not_lt.mp h1)]

theorem ordering_then_eq_gt {o p : Ordering} :
    o.then p = .gt ↔ o = .gt ∨ (o = .eq ∧ p = .gt) := by
  cases o <;> simp [Ordering.then]

/-- The comparator returns `gt` exactly when the sort key of `b` is
lexicographically below the sort key of `a`. -/
theorem violationCmp_eq_gt_iff {a b : Violation} :
    violationCmp a b = .gt ↔ sortKey b < sortKey a := by
  unfold violationCmp sortKey
  simp only [ordering_then_eq_gt, Prod.Lex.lt_iff, cmpo_eq_gt, cmpo_eq_eq,
    neg_lt_neg_iff, neg_inj, Nat.cast_lt, Nat.cast_inj]
  constructor
  · rintro (h | ⟨h1, (h | ⟨h2, (h | ⟨h3, h4⟩)⟩)⟩)
    · exact Or.inl h
    · exact Or.inr ⟨h1, Or.inl h⟩
    · exact Or.inr ⟨h1, Or.inr ⟨h2, Or.inl h⟩⟩
    · exact Or.inr ⟨h1, Or.inr ⟨h2, Or.inr ⟨h3.symm, h4⟩⟩⟩
  · rintro (h | ⟨h1, (h | ⟨h2, (h | ⟨h3, h4⟩)⟩)⟩)
    · exact Or.inl h
    · exact Or.inr ⟨h1, Or.inl h⟩
    · exact Or.inr ⟨h1, Or.inr ⟨h2, Or.inl h⟩⟩
    · exact Or.inr ⟨h1, Or.inr ⟨h2, Or.inr ⟨h3.symm, h4⟩⟩⟩

/-- `prioLE` is exactly the lexicographic order of sort keys. -/
theorem prioLE_iff_sortKey {a b : Violation} :
    prioLE a b ↔ sortKey a ≤ sortKey b := by
  rw [prioLE, ne_eq, violationCmp_eq_gt_iff, not_lt]

instance : IsTotal Violation prioLE :=
  ⟨fun a b => by
    rw [prioLE_iff_sortKey, prioLE_iff_sortKey]
    exact le_total _ _⟩

instance : IsTrans Violation prioLE :=
  ⟨fun a b c hab hbc => by
    rw [prioLE_iff_sortKey] at *
    exact le_trans hab hbc⟩

/-- `Reporter._prioritizeResults`: `results.sort(comparator)`.
`Array.prototype.sort` is specified as a stable sort consistent with the
comparator, which for the consistent comparator above is exactly stable
insertion sort with respect to `prioLE`. -/
def prioritizeResults (results : List Violation) : List Violation :=
  List.insertionSort prioLE results

/-- One step of collapsing runs of whitespace, the `replace(/\s+/g, "-")` in
`Reporter._getElementKey`. The boolean records whether the previous character
was inside a whitespace run already replaced by a dash. -/
def collapseWsAux : Bool → List Char → List Char
  | _, [] => []
  | inWs, c :: rest =>
      if c.isWhitespace then
        if inWs then collapseWsAux true rest
        else '-' :: collapseWsAux true rest
      else c :: collapseWsAux false rest

/-- Replace every maximal whitespace run by a single dash. -/
def collapseWs (s : String) : String :=
  String.mk (collapseWsAux false s.toList)

/-- `Reporter._getElementKey`: tag name, id, class string and the first 50
characters of the text content, joined by dashes, whitespace collapsed. -/
def getElementKey (e : Elem) : String :=
  collapseWs (e.tagName ++ "-" ++ e.id ++ "-" ++ e.className ++ "-" ++
    (e.textContent.take 50))

/-- The string key used by `Reporter._deduplicateResults` for the seen set. -/
def dedupKey (v : Violation) : String :=
  v.ruleId ++ "-" ++ getElementKey v.element

/-- Two violations target the same (ruleId, element-identity-key) pair. -/
def samePair (a b : Violation) : Prop :=
  a.ruleId = b.ruleId ∧ getElementKey a.element = getElementKey b.element

instance : ∀ a b, Decidable (samePair a b) := fun a b => by
  unfold samePair; infer_instance

/-- The filter loop of `Reporter._deduplicateResults`: keep a violation only
when its string key has not been seen, and record the keys of kept entries. -/
def dedupAux (seen : List String) : List Violation → List Violation
  | [] => []
  | v :: rest =>
      if dedupKey v ∈ seen then dedupAux seen rest
      else v :: dedupAux (dedupKey v :: seen) rest

/-- `Reporter._deduplicateResults`. -/
def dedupResults (results : List Violation) : List Violation :=
  dedupAux [] results

theorem samePair_dedupKey {a b : Violation} (h : samePair a b) :
    dedupKey a = dedupKey b := by
  rcases h with ⟨h1, h2⟩
  unfold dedupKey
  rw [h1, h2]

/-- Members of the dedup output come from the input and their key is unseen. -/
theorem mem_dedupAux {seen : List String} {l : List Violation} {v : Violation}
    (h : v ∈ dedupAux seen l) : v ∈ l ∧ dedupKey v ∉ seen := by
  induction l generalizing seen with
  | nil => simp [dedupAux] at h
  | cons w rest ih =>
      rw [dedupAux] at h
      split_ifs at h with hw
      · have := ih h
        exact ⟨List.mem_cons_of_mem _ this.1, this.2⟩
      · rcases List.mem_cons.mp h with rfl | hmem
        · exact ⟨List.mem_cons_self _ _, hw⟩
        · have := ih hmem
          refine ⟨List.mem_cons_of_mem _ this.1, fun hc => this.2 ?_⟩
          exact List.mem_cons_of_mem _ hc

/-- The dedup output never contains two entries with the same string key. -/
theorem dedupAux_pairwise_key (seen : List String) (l : List Violation) :
    (dedupAux seen l).Pairwise (fun a b => dedupKey a ≠ dedupKey b) := by
  induction l generalizing seen with
  | nil => exact List.Pairwise.nil
  | cons w rest ih =>
      rw [dedupAux]
      split_ifs with hw
      · exact ih seen
      · refine List.Pairwise.cons (fun b hb heq => ?_) (ih _)
        have := (mem_dedupAux hb).2
        exact this (by rw [← heq]; exact List.mem_cons_self _ _)

/-- Every member of the dedup output is the first input entry carrying its
string key, except for keys already in the seen set. -/
theorem dedupAux_first_occurrence {seen : List String} {l : List Violation}
    {v : Violation} (h : v ∈ dedupAux seen l) :
    ∃ l1 l2, l = l1 ++ v :: l2 ∧
      ∀ u ∈ l1, dedupKey u = dedupKey v → dedupKey u ∈ seen := by
  induction l generalizing seen with
  | nil => simp [dedupAux] at h
  | cons w rest ih =>
      rw [dedupAux] at h
      split_ifs at h with hw
      · rcases ih h with ⟨l1, l2, rfl, hfirst⟩
        refine ⟨w :: l1, l2, rfl, ?_⟩
        intro u hu hkey
        rcases List.mem_cons.mp hu with rfl | hu'
        · exact hw
        · exact hfirst u hu' hkey
      · rcases List.mem_cons.mp h with rfl | hmem
        · exact ⟨[], rest, rfl, by simp⟩
        · rcases ih hmem with ⟨l1, l2, rfl, hfirst⟩
          have hvkey : dedupKey v ∉ dedupKey w :: seen := (mem_dedupAux hmem).2
          refine ⟨w :: l1, l2, rfl, ?_⟩
          intro u hu hkey
          rcases List.mem_cons.mp hu with rfl | hu'
          · exact absurd (by rw [← hkey]; exact List.mem_cons_self _ _) hvkey
          · have := hfirst u hu' hkey
            rcases List.mem_cons.mp this with heq | hin
            · exact absurd (by rw [← hkey, heq]; exact List.mem_cons_self _ _) hvkey
            · exact hin

/-- A rule record as stored in `RuleEngine.rules` (rules.js). The selector
match (`element.matches(rule.selector)`) and the asynchronous test predicate
are function fields, exactly as the source stores them; `.error ()` models a
thrown exception (or an invalid selector pattern), which the engine catches.
The nested examples payload is flattened to an optional string. -/
structure Rule where
  id : String
  name : String
  description : String
  wcag : Option String
  severity : Severity
  category : String
  matchResult : Elem → Except Unit Bool
  test : Elem → Except Unit Bool
  message : String
  suggestion : String
  examples : Option String
  resources : List String

/-- Did the guarded call return `true` without throwing? -/
def exOkTrue : Except Unit Bool → Bool
  | .ok true => true
  | _ => false

/-- Did the guarded call return `false` without throwing? -/
def exOkFalse : Except Unit Bool → Bool
  | .ok false => true
  | _ => false

/-- The behavior of one enrichment pass of `Reporter._enhanceResult`: the
context, fix suggestions, educational content, user impact and testing
instructions computed for one violation. These are derived from the violation
and the live DOM (reporter.js lines 126-517); their string content is opaque
to every claim, so the payload is carried as plain strings. -/
structure Enrichment where
  context : String
  fixSuggestions : List String
  learnMore : String
  userImpact : String
  testingInstructions : String
deriving DecidableEq

/-- A processed result: the surviving violation spread together with the
added enrichment fields (`Reporter._enhanceResult` copies the violation and
adds context, fixSuggestions, learnMore, userImpact, testingInstructions). -/
structure ProcessedResult where
  base : Violation
  enrich : Enrichment
deriving DecidableEq

/-- The fixed environment of one analysis configuration over an unchanged
DOM: the rule catalog in insertion order (`RuleEngine.rules` is an insertion
ordered Map), the enabled id set, and the DOM-dependent derivations the
pipeline stores without inspecting: `RuleEngine._getElementSelector`,
`RuleEngine._calculateImpact` and the enrichment of `Reporter._enhanceResult`.
Fixing these as functions models an unchanged document between calls. -/
structure AnalyzeEnv where
  rules : List Rule
  enabled : List String
  getSelector : Elem → String
  calcImpact : Elem → Rule → ℚ
  enrich : Violation → Enrichment

/-- `RuleEngine._getApplicableRules`: iterate the catalog in insertion order,
keep enabled rules whose selector match returns true; a thrown matcher error
skips the rule (the catch branch). -/
def applicableRules (env : AnalyzeEnv) (e : Elem) : List Rule :=
  env.rules.filter fun r =>
    env.enabled.contains r.id && exOkTrue (r.matchResult e)

/-- The violation record built by `RuleEngine._executeRule` for a failing
pair, with the selector and impact score drawn from the environment and the
creation timestamp `t` (`Date.now()`). -/
def mkViolation (env : AnalyzeEnv) (t : Nat) (r : Rule) (e : Elem) : Violation :=
  { ruleId := r.id
    name := r.name
    description := r.description
    wcag := r.wcag
    severity := r.severity
    category := r.category
    element := e
    selector := env.getSelector e
    message := r.message
    suggestion := r.suggestion
    examples := r.examples
    resources := r.resources
    impact := env.calcImpact e r
    timestamp := t }

/-- `RuleEngine._executeRule`: a passing test yields no violation, a failing
test yields the violation record, and a thrown test is caught and yields
nothing (`return null` in the catch branch). -/
def executeRule (env : AnalyzeEnv) (t : Nat) (r : Rule) (e : Elem) :
    Option Violation :=
  match r.test e with
  | .ok true => none
  | .ok false => some (mkViolation env t r e)
  | .error _ => none

/-- The violations one element contributes in one pass: each applicable rule
executed in catalog order, failures collected. -/
def elemViolations (env : AnalyzeEnv) (t : Nat) (e : Elem) : List Violation :=
  (applicableRules env e).filterMap fun r => executeRule env t r e

/-- `RuleEngine.executeRules`: elements in order, applicable rules per
element, results pushed in execution order. The outer try/catch around
`_executeRule` never fires because `_executeRule` catches internally. -/
def executeRules (env : AnalyzeEnv) (t : Nat) (elements : List Elem) :
    List Violation :=
  elements.flatMap (elemViolations env t)

/-- The number of rule test invocations a batch performs (the rule-invocation
counter test double of the spec): one per applicable (element, rule) pair. -/
def ruleTestsRun (env : AnalyzeEnv) (elements : List Elem) : Nat :=
  (elements.map fun e => (applicableRules env e).length).sum

/-- `Reporter._enhanceResult`: spread the violation, add enrichment. -/
def enhanceResult (env : AnalyzeEnv) (v : Violation) : ProcessedResult :=
  { base := v, enrich := env.enrich v }

/-- `Reporter.processResults` as a pure transform: deduplicate, prioritize,
enhance. -/
def processResultsList (env : AnalyzeEnv) (raw : List Violation) :
    List ProcessedResult :=
  (prioritizeResults (dedupResults raw)).map (enhanceResult env)

/-- The running summary (`Reporter.summary`); `categories` is the plain
counts object in key insertion order, `lastUpdate` the ISO timestamp. -/
structure Summary where
  total : Nat
  errors : Nat
  warnings : Nat
  info : Nat
  categories : List (String × Nat)
  lastUpdate : String
deriving DecidableEq

/-- `counts[category] = (counts[category] || 0) + 1` on a counts object. -/
def bumpCat : List (String × Nat) → String → List (String × Nat)
  | [], c => [(c, 1)]
  | p :: rest, c =>
      if p.1 = c then (p.1, p.2 + 1) :: rest else p :: bumpCat rest c

/-- `Reporter._getCategoryCounts` over the held results in order. -/
def categoryCounts (rs : List ProcessedResult) : List (String × Nat) :=
  rs.foldl (fun m r => bumpCat m r.base.category) []

/-- `Reporter._updateSummary` from a freshly held result list; `iso` is the
`new Date().toISOString()` value. -/
def mkSummary (rs : List ProcessedResult) (iso : String) : Summary :=
  { total := rs.length
    errors := (rs.filter fun r => decide (r.base.severity = .error)).length
    warnings := (rs.filter fun r => decide (r.base.severity = .warning)).length
    info := (rs.filter fun r => decide (r.base.severity = .info)).length
    categories := categoryCounts rs
    lastUpdate := iso }

/-- The Reporter object state: the held result list and derived summary,
both replaced wholesale by `processResults`. -/
structure ReporterState where
  results : List ProcessedResult
  summary : Summary
deriving DecidableEq

/-- `Reporter.processResults`: compute the processed list, store it and the
recomputed summary, and return it. -/
def reporterProcess (env : AnalyzeEnv) (_st : ReporterState)
    (raw : List Violation) (iso : String) :
    ReporterState × List ProcessedResult :=
  let enhanced := processResultsList env raw
  ({ results := enhanced, summary := mkSummary enhanced iso }, enhanced)

/-- One entry of the parsed JSON export. `JSON.stringify` drops properties
whose value is `undefined`, so the `element: undefined` written by
`_exportJSON` means the parsed entry carries no element reference: this is
modeled by `element : Option Elem` being `none`. `elementSelector` is the
substituted stored selector. -/
structure ExportEntry where
  ruleId : String
  name : String
  description : String
  wcag : Option String
  severity : Severity
  category : String
  element : Option Elem
  selector : String
  message : String
  suggestion : String
  examples : Option String
  resources : List String
  impact : ℚ
  timestamp : Nat
  enrich : Enrichment
  elementSelector : String
deriving DecidableEq

/-- The object `JSON.parse` returns on the `_exportJSON` output. -/
structure ExportDoc where
  summary : Summary
  results : List ExportEntry
deriving DecidableEq

/-- The spread-and-strip of one result in `Reporter._exportJSON`. -/
def exportEntry (p : ProcessedResult) : ExportEntry :=
  { ruleId := p.base.ruleId
    name := p.base.name
    description := p.base.description
    wcag := p.base.wcag
    severity := p.base.severity
    category := p.base.category
    element := none
    selector := p.base.selector
    message := p.base.message
    suggestion := p.base.suggestion
    examples := p.base.examples
    resources := p.base.resources
    impact := p.base.impact
    timestamp := p.base.timestamp
    enrich := p.enrich
    elementSelector := p.base.selector }

/-- `Reporter._exportJSON` composed with `JSON.parse`: the summary plus the
stripped result entries. -/
def exportJSON (st : ReporterState) : ExportDoc :=
  { summary := st.summary, results := st.results.map exportEntry }

/-- Truncation to a 32-bit signed integer, the `hash & hash` step (a
JavaScript bitwise operation applies ToInt32 to its operands). -/
def toInt32 (n : Int) : Int := (n + 2 ^ 31) % 2 ^ 32 - 2 ^ 31

/-- One step of the rolling hash in `A11yEngine._getCacheKey`:
`hash = (hash << 5) - hash + char; hash = hash & hash`. The shift itself
wraps to 32 bits; the subtraction and addition are exact (their magnitude
stays far below 2 to the 53). -/
def hashStep (h : Int) (c : Nat) : Int :=
  toInt32 (toInt32 (h * 32) - h + c)

/-- The rolling hash of the serialized markup, starting from 0; character
codes are modeled by Unicode scalar values (JavaScript hashes UTF-16 units,
which agree on the basic multilingual plane). -/
def hash32 (s : String) : Int :=
  s.toList.foldl (fun h c => hashStep h c.toNat) 0

/-- `A11yEngine._getCacheKey`: tag name, id, class string and the markup
hash joined by dashes (the hash prints in decimal, negative values with a
leading minus, as JavaScript string interpolation does). -/
def cacheKey (e : Elem) : String :=
  e.tagName ++ "-" ++ e.id ++ "-" ++ e.className ++ "-" ++ toString (hash32 e.outerHTML)

/-- The fingerprint cache `A11yEngine._cache`: a `Map` from cache key to the
most recently stored analysis result, in key insertion order. -/
def Cache : Type := List (String × Violation)

/-- `Map.get` composed with `Map.has`: the entry stored for a key. A `Map`
holds at most one entry per key, realized here by in-place replacement. -/
def lookupC : Cache → String → Option Violation
  | [], _ => none
  | p :: rest, k => if p.1 = k then some p.2 else lookupC rest k

/-- `Map.set`: replace the value in place when the key exists, append
otherwise. -/
def setEntry : Cache → String → Violation → Cache
  | [], k, v => [(k, v)]
  | p :: rest, k, v =>
      if p.1 = k then (k, v) :: rest else p :: setEntry rest k v

/-- The performance counters `A11yEngine._stats`. -/
structure Stats where
  analysisCount : Nat
  totalAnalysisTime : ℚ
  violationsFound : Nat
  elementsProcessed : Nat
deriving DecidableEq

/-- One timestamped batch in `A11yEngine._analysisQueue`. -/
structure QueueItem where
  elements : List Elem
  timestamp : Nat
deriving DecidableEq

/-- The mutable state of one `A11yEngine` instance: lifecycle flags, the
fingerprint cache, counters, the pending mutation queue, whether a debounce
timer is outstanding, the Reporter state, and the result list last pushed to
the UI layer. -/
structure EngineState where
  isStarted : Bool
  isAnalyzing : Bool
  cache : Cache
  stats : Stats
  queue : List QueueItem
  timerSet : Bool
  reporter : ReporterState
  ui : List ProcessedResult

/-- The cache-miss partition of the loop in `A11yEngine.analyze`: elements
whose fingerprint has no cache entry, in input order. -/
def uncachedElements (cache : Cache) (els : List Elem) : List Elem :=
  els.filter fun e => (lookupC cache (cacheKey e)).isNone

/-- The cache-hit partition: the stored results of elements whose
fingerprint has a cache entry, in input order. -/
def cachedResults (cache : Cache) (els : List Elem) : List Violation :=
  els.filterMap fun e => lookupC cache (cacheKey e)

/-- `_stats` update performed by `A11yEngine._updateStats`. -/
def updateStats (st : Stats) (elementsProcessed : Nat) (dur : ℚ)
    (violationsFound : Nat) : Stats :=
  { analysisCount := st.analysisCount + 1
    totalAnalysisTime := st.totalAnalysisTime + dur
    violationsFound := st.violationsFound + violationsFound
    elementsProcessed := st.elementsProcessed + elementsProcessed }

/-- The continuation of `A11yEngine.analyze` after `executeRules` resolves:
write each new result into the cache keyed by its element fingerprint (later
writes overwrite earlier ones for the same key), combine cached and new
results, update statistics, run the Reporter, and push nonempty processed
results to the UI. This is the part that executes after the `await`, hence
after `stop()` may already have run; it consults no lifecycle flag. -/
def analyzeApply (env : AnalyzeEnv) (s : EngineState)
    (cached newResults : List Violation) (numEls : Nat)
    (iso : String) (dur : ℚ) : EngineState × List ProcessedResult :=
  let cache' := newResults.foldl (fun c v => setEntry c (cacheKey v.element) v) s.cache
  let allResults := cached ++ newResults
  let stats' := updateStats s.stats numEls dur allResults.length
  let (rep', processed) := reporterProcess env s.reporter allResults iso
  ({ s with
      cache := cache'
      stats := stats'
      reporter := rep'
      ui := if processed.isEmpty then s.ui else processed }, processed)

/-- `A11yEngine.analyze` on a list of element nodes: empty input returns an
empty result set without touching any state; otherwise partition into cache
hits and misses, run the rule engine on the misses only, and apply. `t` is
`Date.now()` at violation creation, `iso` the summary timestamp, `dur` the
measured elapsed time. -/
def analyze (env : AnalyzeEnv) (s : EngineState) (els : List Elem)
    (t : Nat) (iso : String) (dur : ℚ) : EngineState × List ProcessedResult :=
  if els.isEmpty then (s, [])
  else
    let uncached := uncachedElements s.cache els
    let newResults := if uncached.isEmpty then [] else executeRules env t uncached
    analyzeApply env s (cachedResults s.cache els) newResults els.length iso dur

/-- The record returned by `A11yEngine.getStats`. -/
structure StatsView where
  analysisCount : Nat
  totalAnalysisTime : ℚ
  violationsFound : Nat
  elementsProcessed : Nat
  averageAnalysisTime : ℚ
  cacheSize : Nat
  isRunning : Bool
deriving DecidableEq

/-- `A11yEngine.getStats`: the counters plus the guarded average
(`analysisCount > 0 ? total / count : 0`), cache size and running flag. -/
def getStats (s : EngineState) : StatsView :=
  { analysisCount := s.stats.analysisCount
    totalAnalysisTime := s.stats.totalAnalysisTime
    violationsFound := s.stats.violationsFound
    elementsProcessed := s.stats.elementsProcessed
    averageAnalysisTime :=
      if 0 < s.stats.analysisCount then
        s.stats.totalAnalysisTime / (s.stats.analysisCount : ℚ)
      else 0
    cacheSize := s.cache.length
    isRunning := s.isStarted }

/-- `A11yEngine.stop`: a no-op warning when not started; otherwise cancel
the debounce timer, drop the queue, clear the cache, and leave the started
state. Observer disconnection and panel closing touch no modeled state. -/
def stop (s : EngineState) : EngineState :=
  if ¬ s.isStarted then s
  else { s with timerSet := false, queue := [], cache := [], isStarted := false }

/-- A DOM node as seen by the mutation handler: whether it is an element
node, the element handle, and (for added nodes) the descendant elements its
`querySelectorAll("*")` returns in document order. -/
structure MNode where
  isElement : Bool
  elem : Elem
  childElements : List Elem
deriving DecidableEq

/-- One MutationRecord: the mutation target and the added nodes. -/
structure MutationRec where
  target : Option MNode
  addedNodes : List MNode
deriving DecidableEq

/-- First-occurrence deduplication, the observable content of a JavaScript
`Set` built by repeated `add` and read off with `Array.from` (insertion
order, first insertion wins). -/
def dedupFirstAux (seen : List Elem) : List Elem → List Elem
  | [] => []
  | e :: rest =>
      if e ∈ seen then dedupFirstAux seen rest
      else e :: dedupFirstAux (e :: seen) rest

/-- `Array.from` of a `Set` filled from a list. -/
def dedupFirst (l : List Elem) : List Elem :=
  dedupFirstAux [] l

/-- The element handles one mutation contributes to the affected set, in
insertion order: the target if it is an element node, then each added
element node followed by its whole descendant subtree. -/
def mutAffected (m : MutationRec) : List Elem :=
  (match m.target with
   | some n => if n.isElement then [n.elem] else []
   | none => []) ++
  m.addedNodes.flatMap fun n =>
    if n.isElement then n.elem :: n.childElements else []

/-- The deduplicated affected-element set of one observer callback. -/
def affectedElements (muts : List MutationRec) : List Elem :=
  dedupFirst (muts.flatMap mutAffected)

/-- `A11yEngine._handleMutations`: return immediately when the engine is not
started or a flush is in flight (`_isAnalyzing`); otherwise push the
nonempty affected set as a timestamped queue item and (re)arm the debounce
timer. -/
def handleMutations (s : EngineState) (muts : List MutationRec) (now : Nat) :
    EngineState :=
  if ¬ s.isStarted ∨ s.isAnalyzing then s
  else
    let affected := affectedElements muts
    if affected.isEmpty then s
    else { s with queue := s.queue ++ [⟨affected, now⟩], timerSet := true }

/-- The element list a flush hands to `analyze`: drain all queued batches,
flatten in enqueue order, deduplicate by identity, truncate to the first
`maxElements` entries (`Array.from(set).slice(0, maxElements)`). -/
def batchElementsToAnalyze (queue : List QueueItem) (maxElements : Nat) :
    List Elem :=
  (dedupFirst (queue.flatMap QueueItem.elements)).take maxElements

/-- `A11yEngine._processBatch`: skip when a flush is in flight or nothing is
queued; otherwise drain the queue, analyze the capped deduplicated element
set, and clear the analyzing guard on completion. -/
def processBatch (env : AnalyzeEnv) (s : EngineState) (maxElements : Nat)
    (t : Nat) (iso : String) (dur : ℚ) : EngineState × List ProcessedResult :=
  if s.isAnalyzing ∨ s.queue.isEmpty then (s, [])
  else
    let toAnalyze := batchElementsToAnalyze s.queue maxElements
    let s1 := { s with queue := [], isAnalyzing := false }
    if toAnalyze.isEmpty then (s1, [])
    else
      let (s2, r) := analyze env s1 toAnalyze t iso dur
      ({ s2 with isAnalyzing := false }, r)

/-- Unfolding of the lexicographic order of sort keys into the four
comparator components. -/
theorem prioLE_conds {a b : Violation} (h : prioLE a b) :
    severityRank b.severity ≤ severityRank a.severity ∧
    (severityRank a.severity = severityRank b.severity → b.impact ≤ a.impact) ∧
    (severityRank a.severity = severityRank b.severity → a.impact = b.impact →
      getWCAGPriority a.wcag ≤ getWCAGPriority b.wcag) ∧
    (severityRank a.severity = severityRank b.severity → a.impact = b.impact →
      getWCAGPriority a.wcag = getWCAGPriority b.wcag → a.name ≤ b.name) := by
  rw [prioLE_iff_sortKey] at h
  unfold sortKey at h
  rw [Prod.Lex.le_iff] at h
  rcases h with h | ⟨h1, h2⟩
  · have hlt : severityRank b.severity < severityRank a.severity := by
      have := neg_lt_neg_iff.mp h
      exact_mod_cast this
    exact ⟨hlt.le, fun heq => absurd heq (ne_of_gt hlt),
      fun heq _ => absurd heq (ne_of_gt hlt),
      fun heq _ _ => absurd heq (ne_of_gt hlt)⟩
  · have h1' : severityRank a.severity = severityRank b.severity := by
      have := neg_inj.mp h1
      exact_mod_cast this
    rw [Prod.Lex.le_iff] at h2
    rcases h2 with h2 | ⟨h2a, h2b⟩
    · have himp : b.impact < a.impact := neg_lt_neg_iff.mp h2
      exact ⟨le_of_eq h1'.symm, fun _ => himp.le,
        fun _ heq => absurd heq (ne_of_gt himp),
        fun _ heq _ => absurd heq (ne_of_gt himp)⟩
    · have h2a' : a.impact = b.impact := neg_inj.mp h2a
      rw [Prod.Lex.le_iff] at h2b
      rcases h2b with h3 | ⟨h3a, h3b⟩
      · exact ⟨le_of_eq h1'.symm, fun _ => le_of_eq h2a'.symm, fun _ _ => h3.le,
          fun _ _ heq => absurd heq (ne_of_lt h3)⟩
      · exact ⟨le_of_eq h1'.symm, fun _ => le_of_eq h2a'.symm,
          fun _ _ => le_of_eq h3a, fun _ _ _ => h3b⟩

/-- C3: for every list of raw violations, the processed output carries the
deduplicated content, and is sorted so that error entries precede warning
entries precede info entries (severity rank 3, 2, 1 non-increasing), within
equal severity the impact score is non-increasing, within equal severity and
impact the WCAG-reference-derived numeric value is non-decreasing with
missing references (priority 999) at the end, and remaining ties are in
non-decreasing rule-name order. -/
theorem processResults_sort_invariant (env : AnalyzeEnv) (raw : List Violation) :
    ((processResultsList env raw).map ProcessedResult.base).Perm (dedupResults raw) ∧
    (processResultsList env raw).Pairwise (fun p q =>
      severityRank q.base.severity ≤ severityRank p.base.severity ∧
      (severityRank p.base.severity = severityRank q.base.severity →
        q.base.impact ≤ p.base.impact) ∧
      (severityRank p.base.severity = severityRank q.base.severity →
        p.base.impact = q.base.impact →
        getWCAGPriority p.base.wcag ≤ getWCAGPriority q.base.wcag) ∧
      (severityRank p.base.severity = severityRank q.base.severity →
        p.base.impact = q.base.impact →
        getWCAGPriority p.base.wcag = getWCAGPriority q.base.wcag →
        p.base.name ≤ q.base.name) ∧
      (severityRank p.base.severity = severityRank q.base.severity →
        p.base.impact = q.base.impact →
        p.base.wcag = none → (999 : Int) ≤ getWCAGPriority q.base.wcag)) := by
  constructor
  · unfold processResultsList prioritizeResults
    rw [List.map_map]
    have hid : ProcessedResult.base ∘ enhanceResult env = id := rfl
    rw [hid, List.map_id]
    exact List.perm_insertionSort prioLE (dedupResults raw)
  · unfold processResultsList prioritizeResults
    rw [List.pairwise_map]
    refine List.Pairwise.imp ?_ (List.sorted_insertionSort prioLE (dedupResults raw))
    intro a b hle
    have hc := prioLE_conds hle
    refine ⟨hc.1, hc.2.1, hc.2.2.1, hc.2.2.2, ?_⟩
    dsimp only [enhanceResult]
    intro h1 h2 hnone
    have hwp := hc.2.2.1 h1 h2
    rw [hnone] at hwp
    simpa [getWCAGPriority] using hwp

/-- C4: no two entries of the deduplicated output share the same
(ruleId, element-identity-key) pair, and every survivor is the first input
entry with its pair. -/
theorem dedup_invariant (l : List Violation) :
    (dedupResults l).Pairwise (fun a b => ¬ samePair a b) ∧
    ∀ v ∈ dedupResults l, ∃ l1 l2, l = l1 ++ v :: l2 ∧ ∀ u ∈ l1, ¬ samePair u v := by
  constructor
  · exact (dedupAux_pairwise_key [] l).imp fun h hsp => h (samePair_dedupKey hsp)
  · intro v hv
    rcases dedupAux_first_occurrence hv with ⟨l1, l2, heq, hfirst⟩
    exact ⟨l1, l2, heq, fun u hu hsp => by
      simpa using hfirst u hu (samePair_dedupKey hsp)⟩

/-- C9: exporting as JSON and parsing back yields a document whose summary
total equals the held result count, whose entry count equals the held result
count, and none of whose entries carries an element reference. -/
theorem exportJSON_round_trip (env : AnalyzeEnv) (st : ReporterState)
    (raw : List Violation) (iso : String) :
    (exportJSON (reporterProcess env st raw iso).1).summary.total
        = (reporterProcess env st raw iso).1.results.length ∧
    (exportJSON (reporterProcess env st raw iso).1).results.length
        = (reporterProcess env st raw iso).1.results.length ∧
    ∀ en ∈ (exportJSON (reporterProcess env st raw iso).1).results,
      en.element = none := by
  refine ⟨rfl, by simp [exportJSON], ?_⟩
  intro en hen
  rcases List.mem_map.mp hen with ⟨p, _, rfl⟩
  rfl

/-- C10: `getStats` never divides by zero: a zero analysis count yields an
average of zero, a positive count yields total time over count. -/
theorem getStats_average (s : EngineState) :
    (s.stats.analysisCount = 0 → (getStats s).averageAnalysisTime = 0) ∧
    (s.stats.analysisCount ≠ 0 →
      (getStats s).averageAnalysisTime =
        s.stats.totalAnalysisTime / (s.stats.analysisCount : ℚ)) := by
  unfold getStats
  constructor
  · intro h
    simp [h]
  · intro h
    simp [Nat.pos_of_ne_zero h]

theorem exOkTrue_iff {x : Except Unit Bool} : exOkTrue x = true ↔ x = .ok true := by
  cases x with
  | ok b => cases b <;> simp [exOkTrue]
  | error u => simp [exOkTrue]

theorem exOkFalse_iff {x : Except Unit Bool} : exOkFalse x = true ↔ x = .ok false := by
  cases x with
  | ok b => cases b <;> simp [exOkFalse]
  | error u => simp [exOkFalse]

theorem executeRule_eq_some {env : AnalyzeEnv} {t : Nat} {r : Rule} {e : Elem}
    {v : Violation} :
    executeRule env t r e = some v ↔
      r.test e = .ok false ∧ v = mkViolation env t r e := by
  unfold executeRule
  cases htest : r.test e with
  | ok b => cases b <;> simp [eq_comm]
  | error u => simp

theorem mem_applicableRules {env : AnalyzeEnv} {e : Elem} {r : Rule} :
    r ∈ applicableRules env e ↔
      r ∈ env.rules ∧ r.id ∈ env.enabled ∧ r.matchResult e = .ok true := by
  unfold applicableRules
  rw [List.mem_filter]
  simp [exOkTrue_iff, List.elem_iff, and_assoc]

theorem mem_elemViolations {env : AnalyzeEnv} {t : Nat} {e : Elem} {v : Violation} :
    v ∈ elemViolations env t e ↔
      ∃ r, r ∈ env.rules ∧ r.id ∈ env.enabled ∧ r.matchResult e = .ok true ∧
        r.test e = .ok false ∧ v = mkViolation env t r e := by
  unfold elemViolations
  rw [List.mem_filterMap]
  constructor
  · rintro ⟨r, hr, hv⟩
    rcases mem_applicableRules.mp hr with ⟨h1, h2, h3⟩
    rcases executeRule_eq_some.mp hv with ⟨h4, h5⟩
    exact ⟨r, h1, h2, h3, h4, h5⟩
  · rintro ⟨r, h1, h2, h3, h4, h5⟩
    exact ⟨r, mem_applicableRules.mpr ⟨h1, h2, h3⟩,
      executeRule_eq_some.mpr ⟨h4, h5⟩⟩

theorem elemViolations_element {env : AnalyzeEnv} {t : Nat} {e : Elem}
    {v : Violation} (h : v ∈ elemViolations env t e) : v.element = e := by
  rcases mem_elemViolations.mp h with ⟨r, _, _, _, _, rfl⟩
  rfl

/-- Membership characterization of the rule engine output. -/
theorem mem_executeRules {env : AnalyzeEnv} {t : Nat} {els : List Elem}
    {v : Violation} :
    v ∈ executeRules env t els ↔
      v.element ∈ els ∧ ∃ r, r ∈ env.rules ∧ r.id ∈ env.enabled ∧
        r.matchResult v.element = .ok true ∧ r.test v.element = .ok false ∧
        v = mkViolation env t r v.element := by
  unfold executeRules
  rw [List.mem_flatMap]
  constructor
  · rintro ⟨e, he, hv⟩
    have helem := elemViolations_element hv
    subst helem
    exact ⟨he, mem_elemViolations.mp hv⟩
  · rintro ⟨he, hex⟩
    exact ⟨v.element, he, mem_elemViolations.mpr hex⟩


/-- Factor one element evaluation into the failing applicable rules mapped
to their violation records; the timestamp only enters through the map. -/
theorem elemViolations_factor (env : AnalyzeEnv) (t : Nat) (e : Elem) :
    elemViolations env t e =
      ((applicableRules env e).filter fun r => exOkFalse (r.test e)).map
        fun r => mkViolation env t r e := by
  unfold elemViolations
  induction applicableRules env e with
  | nil => rfl
  | cons r rs ih =>
      rw [List.filterMap_cons, List.filter_cons]
      have hex : executeRule env t r e =
          if exOkFalse (r.test e) = true then some (mkViolation env t r e)
          else none := by
        unfold executeRule exOkFalse
        cases r.test e with
        | ok b => cases b <;> rfl
        | error u => rfl
      rw [hex]
      by_cases hf : exOkFalse (r.test e) = true
      · simp [hf, ih]
      · simp [hf, ih]

theorem elemViolations_length_t (env : AnalyzeEnv) (t t' : Nat) (e : Elem) :
    (elemViolations env t e).length = (elemViolations env t' e).length := by
  rw [elemViolations_factor env t e, elemViolations_factor env t' e,
    List.length_map, List.length_map]

theorem elemViolations_nil_t {env : AnalyzeEnv} {t t' : Nat} {e : Elem}
    (h : elemViolations env t e = []) : elemViolations env t' e = [] := by
  have := elemViolations_length_t env t' t e
  rw [h] at this
  exact List.eq_nil_of_length_eq_zero this

theorem lookupC_setEntry (c : Cache) (k : String) (v : Violation) (k' : String) :
    lookupC (setEntry c k v) k' = if k' = k then some v else lookupC c k' := by
  induction c with
  | nil =>
      simp only [setEntry, lookupC]
      by_cases h : k = k'
      · simp [h]
      · have h' : ¬ k' = k := fun hh => h hh.symm
        simp [h, h']
  | cons p rest ih =>
      simp only [setEntry]
      by_cases hp : p.1 = k
      · rw [if_pos hp]
        simp only [lookupC]
        by_cases hk' : k = k'
        · subst hk'
          simp
        · have h1 : ¬ k' = k := fun hh => hk' hh.symm
          have hp' : ¬ p.1 = k' := by
            rw [hp]
            exact hk'
          simp [hk', h1, hp']
      · rw [if_neg hp]
        simp only [lookupC]
        by_cases hp' : p.1 = k'
        · have h1 : ¬ k' = k := fun hh => hp (hp'.trans hh)
          simp [hp', h1]
        · simp [hp', ih]

/-- Later entry wins: which violation a key maps to after a write sequence. -/
def orO : Option Violation → Option Violation → Option Violation
  | some v, _ => some v
  | none, b => b

theorem orO_none (a : Option Violation) : orO a none = a := by
  cases a <;> rfl

theorem orO_eq_none_iff {a b : Option Violation} :
    orO a b = none ↔ a = none ∧ b = none := by
  cases a <;> simp [orO]

/-- The last write to key `k` performed by the cache update loop over a
result list (later list entries take precedence). -/
def lastWrite : List Violation → String → Option Violation
  | [], _ => none
  | v :: rest, k =>
      orO (lastWrite rest k) (if cacheKey v.element = k then some v else none)

theorem lookupC_foldl_setEntry (L : List Violation) (c : Cache) (k : String) :
    lookupC (L.foldl (fun c v => setEntry c (cacheKey v.element) v) c) k
      = orO (lastWrite L k) (lookupC c k) := by
  induction L generalizing c with
  | nil => rfl
  | cons v rest ih =>
      rw [List.foldl_cons, ih, lastWrite]
      rw [lookupC_setEntry]
      cases hrest : lastWrite rest k with
      | some w => rfl
      | none =>
          by_cases hv : cacheKey v.element = k
          · simp [orO, hv]
          · have : ¬ k = cacheKey v.element := fun hh => hv hh.symm
            simp [orO, hv, this]

theorem lastWrite_eq_none_iff {L : List Violation} {k : String} :
    lastWrite L k = none ↔ ∀ v ∈ L, cacheKey v.element ≠ k := by
  induction L with
  | nil => simp [lastWrite]
  | cons v rest ih =>
      rw [lastWrite, orO_eq_none_iff, ih]
      by_cases hv : cacheKey v.element = k
      · simp [hv]
      · simp [hv]

theorem lastWrite_mem {L : List Violation} {k : String} {v : Violation}
    (h : lastWrite L k = some v) : v ∈ L ∧ cacheKey v.element = k := by
  induction L with
  | nil => cases h
  | cons w rest ih =>
      rw [lastWrite] at h
      cases hrest : lastWrite rest k with
      | some u =>
          rw [hrest] at h
          simp only [orO] at h
          injection h with h'
          subst h'
          exact ⟨List.mem_cons_of_mem _ (ih hrest).1, (ih hrest).2⟩
      | none =>
          rw [hrest] at h
          simp only [orO] at h
          by_cases hw : cacheKey w.element = k
          · rw [if_pos hw] at h
            injection h with h'
            subst h'
            exact ⟨List.mem_cons_self _ _, hw⟩
          · rw [if_neg hw] at h
            cases h

theorem lastWrite_eq_some {L : List Violation} {k : String} {ve : Violation}
    (hmem : ve ∈ L) (huni : ∀ v ∈ L, cacheKey v.element = k → v = ve)
    (hk : cacheKey ve.element = k) : lastWrite L k = some ve := by
  induction L with
  | nil => cases hmem
  | cons w rest ih =>
      rw [lastWrite]
      cases hrest : lastWrite rest k with
      | some u =>
          have hu := lastWrite_mem hrest
          have huv : u = ve := huni u (List.mem_cons_of_mem _ hu.1) hu.2
          rw [huv]
          rfl
      | none =>
          rcases List.mem_cons.mp hmem with rfl | hmem'
          · simp [orO, hk]
          · have := ih hmem' fun v hv => huni v (List.mem_cons_of_mem _ hv)
            rw [hrest] at this
            cases this

theorem lastWrite_isSome_iff {L : List Violation} {k : String} :
    (lastWrite L k).isSome = true ↔ ∃ v ∈ L, cacheKey v.element = k := by
  cases h : lastWrite L k with
  | some v =>
      constructor
      · intro _
        exact ⟨v, (lastWrite_mem h).1, (lastWrite_mem h).2⟩
      · intro _
        rfl
  | none =>
      constructor
      · intro h'
        cases h'
      · rintro ⟨v, hv, hkk⟩
        exact absurd hkk (lastWrite_eq_none_iff.mp h v hv)

theorem executeRules_nil (env : AnalyzeEnv) (t : Nat) :
    executeRules env t [] = [] := rfl

theorem newResults_if (env : AnalyzeEnv) (t : Nat) (u : List Elem) :
    (if u.isEmpty then [] else executeRules env t u) = executeRules env t u := by
  cases u <;> simp [executeRules]

/-- `analyze` on a nonempty element list, with the rule-engine branch
collapsed (running the rule engine on an empty miss list yields nothing). -/
theorem analyze_eq (env : AnalyzeEnv) (s : EngineState) (els : List Elem)
    (t : Nat) (iso : String) (dur : ℚ) (h : els.isEmpty = false) :
    analyze env s els t iso dur =
      analyzeApply env s (cachedResults s.cache els)
        (executeRules env t (uncachedElements s.cache els)) els.length iso dur := by
  unfold analyze
  rw [h]
  simp only [Bool.false_eq_true, if_false, newResults_if]

theorem analyzeApply_snd (env : AnalyzeEnv) (s : EngineState)
    (cached newResults : List Violation) (numEls : Nat) (iso : String) (dur : ℚ) :
    (analyzeApply env s cached newResults numEls iso dur).2
      = processResultsList env (cached ++ newResults) := rfl

theorem analyzeApply_cache (env : AnalyzeEnv) (s : EngineState)
    (cached newResults : List Violation) (numEls : Nat) (iso : String) (dur : ℚ) :
    (analyzeApply env s cached newResults numEls iso dur).1.cache
      = newResults.foldl (fun c v => setEntry c (cacheKey v.element) v) s.cache := rfl

theorem cachedResults_nil_cache (els : List Elem) :
    cachedResults [] els = [] := by
  induction els with
  | nil => rfl
  | cons e rest ih => simp [cachedResults, lookupC]

theorem uncachedElements_nil_cache (els : List Elem) :
    uncachedElements [] els = els := by
  induction els with
  | nil => rfl
  | cons e rest ih => simp [uncachedElements, lookupC]

theorem flatMap_eq_filterMap_head {l : List Elem} {f : Elem → List Violation}
    (h : ∀ x ∈ l, (f x).length ≤ 1) :
    l.flatMap f = l.filterMap fun x => (f x).head? := by
  induction l with
  | nil => rfl
  | cons x rest ih =>
      rw [List.flatMap_cons, List.filterMap_cons]
      have hx := h x (List.mem_cons_self _ _)
      have hrest := ih fun y hy => h y (List.mem_cons_of_mem _ hy)
      cases hfx : f x with
      | nil => simp [hfx, hrest]
      | cons a tl =>
          rw [hfx] at hx
          cases tl with
          | nil => simp [hfx, hrest]
          | cons b tl2 => simp at hx

/-- C8: a violation is in the rule engine output exactly when it comes from
an enabled catalog rule whose selector match returned true and whose test
returned false without throwing, on an element of the batch. In particular a
pair whose match or test throws contributes no violation, and no throwing
pair prevents any other pair from being evaluated and returned. -/
theorem ruleEngine_error_isolation (env : AnalyzeEnv) (t : Nat)
    (els : List Elem) (v : Violation) :
    v ∈ executeRules env t els ↔
      v.element ∈ els ∧ ∃ r, r ∈ env.rules ∧ r.id ∈ env.enabled ∧
        r.matchResult v.element = .ok true ∧ r.test v.element = .ok false ∧
        v = mkViolation env t r v.element :=
  mem_executeRules

/-- A neutral enrichment payload for concrete examples. -/
def enrich0 : Enrichment :=
  { context := "page content"
    fixSuggestions := []
    learnMore := ""
    userImpact := ""
    testingInstructions := "" }

/-- A concrete anchor element. -/
def elemA : Elem :=
  { eid := 0
    tagName := "A"
    id := ""
    className := ""
    textContent := ""
    outerHTML := "<a href=x></a>" }

/-- A concrete button element. -/
def elemB : Elem :=
  { eid := 1
    tagName := "BUTTON"
    id := ""
    className := ""
    textContent := ""
    outerHTML := "<button></button>" }

/-- The empty-links catalog rule, with matching and test behavior fixed to
the value they take on the sample elements (both match, test fails). -/
def ruleLinks : Rule :=
  { id := "empty-links"
    name := "Empty Links"
    description := "Links must have accessible text content"
    wcag := some "2.4.4"
    severity := .error
    category := "semantic"
    matchResult := fun _ => .ok true
    test := fun _ => .ok false
    message := "Link has no accessible text"
    suggestion := "Add text content or aria-label to describe the link purpose"
    examples := none
    resources := [] }

/-- The heading-structure catalog rule (warning severity), fixed to match
and fail. -/
def ruleHeading : Rule :=
  { id := "missing-heading-structure"
    name := "Improper Heading Structure"
    description := "Headings should follow logical hierarchy"
    wcag := some "1.3.1"
    severity := .warning
    category := "structural"
    matchResult := fun _ => .ok true
    test := fun _ => .ok false
    message := "Heading level skips or breaks hierarchy"
    suggestion := "Use headings in sequential order"
    examples := none
    resources := [] }

/-- The missing-alt-text catalog rule, fixed to match and pass. -/
def rulePass : Rule :=
  { id := "missing-alt-text"
    name := "Images Missing Alternative Text"
    description := "All images must have alternative text for screen readers"
    wcag := some "1.1.1"
    severity := .error
    category := "multimedia"
    matchResult := fun _ => .ok true
    test := fun _ => .ok true
    message := "Image is missing alternative text"
    suggestion := "Add descriptive alt attribute"
    examples := none
    resources := [] }

/-- An environment with two enabled rules that both match and fail. -/
def envTwo : AnalyzeEnv :=
  { rules := [ruleLinks, ruleHeading]
    enabled := ["empty-links", "missing-heading-structure"]
    getSelector := fun e => e.tagName
    calcImpact := fun _ _ => 6
    enrich := fun _ => enrich0 }

/-- An environment with a single enabled rule that matches and fails. -/
def envOne : AnalyzeEnv :=
  { rules := [ruleLinks]
    enabled := ["empty-links"]
    getSelector := fun e => e.tagName
    calcImpact := fun _ _ => 6
    enrich := fun _ => enrich0 }

/-- An environment with a single enabled rule that matches and passes. -/
def envPass : AnalyzeEnv :=
  { rules := [rulePass]
    enabled := ["missing-alt-text"]
    getSelector := fun e => e.tagName
    calcImpact := fun _ _ => 6
    enrich := fun _ => enrich0 }

/-- Zeroed statistics of a fresh engine. -/
def stats0 : Stats :=
  { analysisCount := 0
    totalAnalysisTime := 0
    violationsFound := 0
    elementsProcessed := 0 }

/-- The initial Reporter state. -/
def reporter0 : ReporterState :=
  { results := []
    summary :=
      { total := 0
        errors := 0
        warnings := 0
        info := 0
        categories := []
        lastUpdate := "" } }

/-- A freshly started engine with empty cache and queue. -/
def engine0 : EngineState :=
  { isStarted := true
    isAnalyzing := false
    cache := []
    stats := stats0
    queue := []
    timerSet := false
    reporter := reporter0
    ui := [] }

/-- The violation the empty-links rule produces on the sample anchor. -/
def vLink : Violation := mkViolation envTwo 1 ruleLinks elemA

/-- C8 witness: the empty-links violation is reported for the anchor even
though the engine also evaluates other pairs, via the backward direction of
the characterization at a concrete input. -/
theorem ruleEngine_error_isolation_witness :
    vLink ∈ executeRules envTwo 1 [elemA] :=
  (ruleEngine_error_isolation envTwo 1 [elemA] vLink).mpr
    ⟨by decide, ruleLinks, by simp [envTwo], by decide, rfl, rfl, rfl⟩

/-- C3 witness: the sort invariant applied to a concrete singleton input. -/
theorem processResults_sort_invariant_witness :
    ((processResultsList envTwo [vLink]).map ProcessedResult.base).Perm
      (dedupResults [vLink]) :=
  (processResults_sort_invariant envTwo [vLink]).1

/-- C4 witness: the dedup invariant applied to a concrete input. -/
theorem dedup_invariant_witness :
    (dedupResults [vLink]).Pairwise (fun a b => ¬ samePair a b) :=
  (dedup_invariant [vLink]).1

/-- C9 witness: the export round trip applied to a concrete result set. -/
theorem exportJSON_round_trip_witness :
    (exportJSON (reporterProcess envTwo reporter0 [vLink] "t").1).summary.total
      = (reporterProcess envTwo reporter0 [vLink] "t").1.results.length :=
  (exportJSON_round_trip envTwo reporter0 [vLink] "t").1

/-- C10 witness: the zero-count branch applied to the fresh engine. -/
theorem getStats_average_witness :
    engine0.stats.analysisCount = 0 ∧
    (getStats engine0).averageAnalysisTime = 0 :=
  ⟨rfl, (getStats_average engine0).1 rfl⟩

/-- A queue of two one-element batches, the first enqueued earlier. -/
def qBurst : List QueueItem := [⟨[elemA], 0⟩, ⟨[elemB], 1⟩]

/-- C5 counterexample: with a cap of 1 and two queued elements, the flush
analyzes the earliest-enqueued element and drops the most recent one; the
claim says the oldest is dropped, which would keep the second element. -/
theorem batch_cap_counterexample :
    batchElementsToAnalyze qBurst 1 = [elemA] ∧
    batchElementsToAnalyze qBurst 1 ≠ [elemB] ∧ elemA ≠ elemB := by
  decide

/-- C5 amended: the flush hands over exactly the first `maxElements` entries
of the deduplicated queue in first-enqueue order (so the elements dropped
beyond the cap are the most recently enqueued ones), and exactly
`maxElements` elements are analyzed whenever the deduplicated set reaches
the cap. -/
theorem batch_cap (q : List QueueItem) (m : Nat) :
    batchElementsToAnalyze q m ++
        (dedupFirst (q.flatMap QueueItem.elements)).drop m
      = dedupFirst (q.flatMap QueueItem.elements) ∧
    (m ≤ (dedupFirst (q.flatMap QueueItem.elements)).length →
      (batchElementsToAnalyze q m).length = m) := by
  constructor
  · exact List.take_append_drop m _
  · intro h
    unfold batchElementsToAnalyze
    rw [List.length_take]
    exact min_eq_left h

/-- C5 witness: the cap branch applied to the concrete burst queue. -/
theorem batch_cap_witness :
    1 ≤ (dedupFirst (qBurst.flatMap QueueItem.elements)).length ∧
    (batchElementsToAnalyze qBurst 1).length = 1 :=
  ⟨by decide, (batch_cap qBurst 1).2 (by decide)⟩

/-- The engine while a flush is in flight. -/
def sBusy : EngineState := { engine0 with isAnalyzing := true }

/-- A mutation whose target is the sample anchor element. -/
def mutA : MutationRec :=
  { target := some { isElement := true, elem := elemA, childElements := [] }
    addedNodes := [] }

/-- C6 counterexample: a mutation with a nonempty affected set arriving
while a flush is in flight leaves the queue empty and the state untouched,
so it is discarded rather than enqueued for the next cycle. -/
theorem mutations_discarded_counterexample :
    affectedElements [mutA] = [elemA] ∧
    handleMutations sBusy [mutA] 7 = sBusy ∧
    (handleMutations sBusy [mutA] 7).queue = [] := by
  refine ⟨by decide, rfl, rfl⟩

/-- C6 amended: the mutation handler returns without enqueuing anything
whenever a flush is in flight, so such notifications are discarded; they are
in particular never merged into the current flush. -/
theorem handleMutations_in_flight (s : EngineState) (muts : List MutationRec)
    (now : Nat) (h : s.isAnalyzing = true) :
    handleMutations s muts now = s := by
  unfold handleMutations
  rw [h]
  simp

/-- C6 witness: the in-flight branch applied to a concrete busy state. -/
theorem handleMutations_in_flight_witness :
    sBusy.isAnalyzing = true ∧ handleMutations sBusy [mutA] 7 = sBusy :=
  ⟨rfl, handleMutations_in_flight sBusy [mutA] 7 rfl⟩

/-- C7 amended: the post-await continuation of `analyze` consults no
lifecycle flag: its state update and returned results are the same whatever
the value of `isStarted`, so an analysis in flight when `stop()` runs still
applies its result to cache, statistics, Reporter and UI on completion. -/
theorem analyzeApply_ignores_running_flag (env : AnalyzeEnv) (s : EngineState)
    (cached newResults : List Violation) (numEls : Nat) (iso : String)
    (dur : ℚ) (b : Bool) :
    analyzeApply env { s with isStarted := b } cached newResults numEls iso dur
      = ({ (analyzeApply env s cached newResults numEls iso dur).1 with
            isStarted := b },
          (analyzeApply env s cached newResults numEls iso dur).2) := rfl

set_option maxRecDepth 8000 in
/-- C7 counterexample: after `stop()` the engine is stopped, yet an in-flight
analysis completing afterwards still increments the statistics, repopulates
the cache, and pushes results to the UI. -/
theorem stop_discards_counterexample :
    (stop engine0).isStarted = false ∧
    (analyzeApply envTwo (stop engine0) [] [vLink] 1 "iso" 2).1.stats.analysisCount
        = 1 ∧
    lookupC (analyzeApply envTwo (stop engine0) [] [vLink] 1 "iso" 2).1.cache
        (cacheKey elemA) = some vLink ∧
    (analyzeApply envTwo (stop engine0) [] [vLink] 1 "iso" 2).1.ui ≠ [] := by
  refine ⟨rfl, rfl, by decide, by decide⟩

theorem orO_isSome {a b : Option Violation} :
    (orO a b).isSome = true ↔ a.isSome = true ∨ b.isSome = true := by
  cases a <;> simp [orO]

/-- C2 amended: the cache is consulted before rule execution, so an element
whose fingerprint has a cache entry is excluded from the miss partition and
no rule runs for it; but an analysis call creates cache entries only for
elements that produced at least one violation (there is no passed marker):
after a call, a key has an entry exactly when it had one before or some new
violation was stored under it, so elements that passed every rule are
re-executed on the next call. -/
theorem cache_hit_no_rerun (env : AnalyzeEnv) (s : EngineState)
    (els : List Elem) (t : Nat) (iso : String) (dur : ℚ) :
    (∀ e ∈ els, (lookupC s.cache (cacheKey e)).isSome = true →
      e ∉ uncachedElements s.cache els) ∧
    (∀ k, (lookupC (analyze env s els t iso dur).1.cache k).isSome = true ↔
      ((lookupC s.cache k).isSome = true ∨
        ∃ v ∈ executeRules env t (uncachedElements s.cache els),
          cacheKey v.element = k)) := by
  constructor
  · intro e _ hsome hmem
    have h2 := (List.mem_filter.mp hmem).2
    rw [Option.isNone_iff_eq_none] at h2
    rw [h2] at hsome
    simp at hsome
  · intro k
    by_cases hempty : els.isEmpty
    · have hels : els = [] := List.isEmpty_iff.mp hempty
      subst hels
      simp [analyze, uncachedElements, executeRules]
    · have h' : els.isEmpty = false := by simpa using hempty
      rw [analyze_eq env s els t iso dur h', analyzeApply_cache,
        lookupC_foldl_setEntry, orO_isSome, lastWrite_isSome_iff]
      exact or_comm

set_option maxRecDepth 8000 in
/-- C2 counterexample: an element that passes the only applicable rule gets
no cache entry at all (no passed marker), so a second analysis of the same
unchanged element re-executes its one applicable rule rather than zero. -/
theorem cache_no_passed_marker_counterexample :
    (analyze envPass engine0 [elemA] 1 "iso" 1).2 = [] ∧
    (analyze envPass engine0 [elemA] 1 "iso" 1).1.cache = [] ∧
    uncachedElements (analyze envPass engine0 [elemA] 1 "iso" 1).1.cache [elemA]
        = [elemA] ∧
    ruleTestsRun envPass
        (uncachedElements (analyze envPass engine0 [elemA] 1 "iso" 1).1.cache
          [elemA]) = 1 := by
  refine ⟨rfl, rfl, by decide, by decide⟩

/-- A cache holding the stored violation of the sample anchor. -/
def cacheW : Cache := [(cacheKey elemA, vLink)]

set_option maxRecDepth 8000 in
/-- C2 witness: the cache-hit branch applied to a concrete cached element. -/
theorem cache_hit_no_rerun_witness :
    (lookupC cacheW (cacheKey elemA)).isSome = true ∧
    elemA ∉ uncachedElements cacheW [elemA] :=
  ⟨by decide,
    (cache_hit_no_rerun envTwo { engine0 with cache := cacheW } [elemA] 1
      "iso" 1).1 elemA (by decide) (by decide)⟩

/-- C1 amended: from a fresh cache, if every element yields at most one
violation and distinct listed elements have distinct fingerprints, a second
`analyze` of the same unchanged element set returns exactly the first call's
processed result set (violating elements are served from cache, passing
elements are re-executed with the same outcome). -/
theorem analyze_idempotent (env : AnalyzeEnv) (s : EngineState)
    (els : List Elem) (t1 t2 : Nat) (iso1 iso2 : String) (d1 d2 : ℚ)
    (hcache : s.cache = [])
    (hone : ∀ e ∈ els, (elemViolations env t1 e).length ≤ 1)
    (hinj : ∀ e1 ∈ els, ∀ e2 ∈ els, cacheKey e1 = cacheKey e2 → e1 = e2) :
    (analyze env (analyze env s els t1 iso1 d1).1 els t2 iso2 d2).2
      = (analyze env s els t1 iso1 d1).2 := by
  by_cases hempty : els.isEmpty
  · have hels : els = [] := List.isEmpty_iff.mp hempty
    subst hels
    rfl
  · have hne : els.isEmpty = false := by simpa using hempty
    rw [analyze_eq env s els t1 iso1 d1 hne, hcache, uncachedElements_nil_cache,
      cachedResults_nil_cache, analyze_eq env _ els t2 iso2 d2 hne]
    simp only [analyzeApply_snd, analyzeApply_cache, hcache]
    have hlook : ∀ e ∈ els,
        lookupC ((executeRules env t1 els).foldl
          (fun c v => setEntry c (cacheKey v.element) v) []) (cacheKey e)
          = (elemViolations env t1 e).head? := by
      intro e he
      rw [lookupC_foldl_setEntry]
      simp only [lookupC, orO_none]
      have hsub : ∀ v ∈ executeRules env t1 els,
          cacheKey v.element = cacheKey e → v ∈ elemViolations env t1 e := by
        intro v hv hk
        rcases mem_executeRules.mp hv with ⟨hvel, hex⟩
        have hve : v.element = e := hinj v.element hvel e he hk
        rw [← hve]
        exact mem_elemViolations.mpr hex
      cases hev : elemViolations env t1 e with
      | nil =>
          rw [List.head?_nil]
          apply lastWrite_eq_none_iff.mpr
          intro v hv hk
          have hmem := hsub v hv hk
          rw [hev] at hmem
          cases hmem
      | cons ve tl =>
          have hone' := hone e he
          rw [hev] at hone'
          cases tl with
          | cons b tl2 => simp at hone'
          | nil =>
              rw [List.head?_cons]
              apply lastWrite_eq_some
              · show ve ∈ els.flatMap (elemViolations env t1)
                exact List.mem_flatMap.mpr
                  ⟨e, he, by rw [hev]; exact List.mem_cons_self _ _⟩
              · intro v hv hk
                have hmem := hsub v hv hk
                rw [hev] at hmem
                rcases List.mem_cons.mp hmem with rfl | h0
                · rfl
                · cases h0
              · have hvemem : ve ∈ elemViolations env t1 e := by
                  rw [hev]
                  exact List.mem_cons_self _ _
                rw [elemViolations_element hvemem]
    have hc2 : cachedResults ((executeRules env t1 els).foldl
          (fun c v => setEntry c (cacheKey v.element) v) []) els
        = els.filterMap fun e => (elemViolations env t1 e).head? := by
      unfold cachedResults
      exact List.filterMap_congr fun e he => hlook e he
    have hu2 : executeRules env t2 (uncachedElements
          ((executeRules env t1 els).foldl
            (fun c v => setEntry c (cacheKey v.element) v) []) els) = [] := by
      have hconv : executeRules env t2 (uncachedElements
            ((executeRules env t1 els).foldl
              (fun c v => setEntry c (cacheKey v.element) v) []) els)
          = (uncachedElements ((executeRules env t1 els).foldl
              (fun c v => setEntry c (cacheKey v.element) v) []) els).flatMap
              (elemViolations env t2) := rfl
      rw [hconv]
      apply List.flatMap_eq_nil_iff.mpr
      intro e he'
      have heels : e ∈ els := (List.mem_filter.mp he').1
      have hnone := (List.mem_filter.mp he').2
      rw [Option.isNone_iff_eq_none, hlook e heels] at hnone
      have hnil : elemViolations env t1 e = [] := by
        cases hev : elemViolations env t1 e with
        | nil => rfl
        | cons a l =>
            rw [hev, List.head?_cons] at hnone
            cases hnone
      exact elemViolations_nil_t hnil
    have hall1 : executeRules env t1 els
        = els.filterMap fun e => (elemViolations env t1 e).head? := by
      unfold executeRules
      exact flatMap_eq_filterMap_head hone
    rw [hc2, hu2]
    rw [hall1]
    simp

set_option maxRecDepth 8000 in
/-- C1 counterexample: an element violating two rules is cached under a
single fingerprint key (the second write overwrites the first), so the
second `analyze` of the unchanged element returns one processed result where
the first returned two: the result sets differ. -/
theorem analyze_idempotent_counterexample :
    (analyze envTwo (analyze envTwo engine0 [elemA] 1 "a" 1).1 [elemA] 2 "b" 1).2
      ≠ (analyze envTwo engine0 [elemA] 1 "a" 1).2 := by
  have h1 : ((analyze envTwo (analyze envTwo engine0 [elemA] 1 "a" 1).1
      [elemA] 2 "b" 1).2).length = 1 := by decide
  have h2 : ((analyze envTwo engine0 [elemA] 1 "a" 1).2).length = 2 := by decide
  intro h
  rw [h, h2] at h1
  omega

set_option maxRecDepth 8000 in
/-- C1 witness: the amended idempotence applied to a concrete single-rule
environment where the element yields exactly one violation. -/
theorem analyze_idempotent_witness :
    (engine0.cache = [] ∧
      (∀ e ∈ [elemA], (elemViolations envOne 1 e).length ≤ 1) ∧
      (∀ e1 ∈ [elemA], ∀ e2 ∈ [elemA], cacheKey e1 = cacheKey e2 → e1 = e2)) ∧
    (analyze envOne (analyze envOne engine0 [elemA] 1 "a" 1).1 [elemA] 2 "b" 1).2
      = (analyze envOne engine0 [elemA] 1 "a" 1).2 :=
  ⟨⟨rfl, by decide, by decide⟩,
    analyze_idempotent envOne engine0 [elemA] 1 2 "a" "b" 1 1 rfl
      (by decide) (by decide)⟩
